import Mathlib

/-!
Shallow embedding of the styling core (`src/style.rs`) and the gauge
widgets (`src/widgets/gauge.rs`) of the `ratatui_user_input` repository,
together with proofs of the specified properties.

Machine reals (`f64`) are embedded as exact rationals `ℚ`; Rust's
`f64::round` (round half away from zero) is embedded for nonnegative
arguments as `⌊q + 1/2⌋`, and `x % 1.0` for nonnegative `x` as the
fractional part `q - ⌊q⌋`.
-/

namespace Ratatui

/-- Modelled from the spec: `Color` (the `color` submodule of `style.rs` is
not among the provided sources) is an opaque enumerated value — named
colors, an indexed palette value, an RGB triple, or the special `Reset`
value meaning "inherit terminal default"; equality is structural. -/
inductive Color where
  | Reset
  | Black
  | Red
  | Green
  | Yellow
  | Blue
  | Magenta
  | Cyan
  | Gray
  | DarkGray
  | LightRed
  | LightGreen
  | LightYellow
  | LightBlue
  | LightMagenta
  | LightCyan
  | White
  | Rgb (r g b : Nat)
  | Indexed (i : Nat)
deriving DecidableEq

/-- `Modifier` from `src/style.rs`: a bit-set over the nine emphasis flags
(`BOLD`, `DIM`, `ITALIC`, `UNDERLINED`, `SLOW_BLINK`, `RAPID_BLINK`,
`REVERSED`, `HIDDEN`, `CROSSED_OUT`), embedded as a finite set of bit
positions; `bitflags` union / difference / intersection become the
corresponding finite-set operations. -/
abbrev Modifier : Type := Finset (Fin 9)

namespace Modifier

/-- `Modifier::empty()`. -/
def empty : Modifier := ∅

/-- `Modifier::all()`. -/
def all : Modifier := Finset.univ

/-- `Modifier::BOLD` (bit 0). -/
def BOLD : Modifier := {0}

/-- `Modifier::DIM` (bit 1). -/
def DIM : Modifier := {1}

/-- `Modifier::ITALIC` (bit 2). -/
def ITALIC : Modifier := {2}

/-- `Modifier::UNDERLINED` (bit 3). -/
def UNDERLINED : Modifier := {3}

end Modifier

/-- `Style` from `src/style.rs` (with the `underline-color` feature
compiled in, so the `underline_color` field is present). -/
structure Style where
  fg : Option Color
  bg : Option Color
  underline_color : Option Color
  add_modifier : Modifier
  sub_modifier : Modifier
deriving DecidableEq

namespace Style

/-- `Style::new()`: every field absent / empty. -/
def new : Style :=
  { fg := none
    bg := none
    underline_color := none
    add_modifier := Modifier.empty
    sub_modifier := Modifier.empty }

/-- `impl Default for Style` delegates to `Style::new()`. -/
def default : Style := Style.new

/-- `Style::reset()`: `fg`, `bg`, `underline_color` are the `Reset` color,
`add_modifier` empty, `sub_modifier` all flags. -/
def reset : Style :=
  { fg := some Color.Reset
    bg := some Color.Reset
    underline_color := some Color.Reset
    add_modifier := Modifier.empty
    sub_modifier := Modifier.all }

/-- `Style::fg(color)` (named `setFg` because `fg` is the field
projection in Lean). -/
def setFg (self : Style) (color : Color) : Style :=
  { self with fg := some color }

/-- `Style::bg(color)`. -/
def setBg (self : Style) (color : Color) : Style :=
  { self with bg := some color }

/-- `Style::underline_color(color)`. -/
def setUnderlineColor (self : Style) (color : Color) : Style :=
  { self with underline_color := some color }

/-- `Style::add_modifier(modifier)`: remove the flags from `sub_modifier`,
union them into `add_modifier`. -/
def addModifier (self : Style) (modifier : Modifier) : Style :=
  { self with
    sub_modifier := self.sub_modifier \ modifier
    add_modifier := self.add_modifier ∪ modifier }

/-- `Style::remove_modifier(modifier)`: remove the flags from
`add_modifier`, union them into `sub_modifier`. -/
def removeModifier (self : Style) (modifier : Modifier) : Style :=
  { self with
    add_modifier := self.add_modifier \ modifier
    sub_modifier := self.sub_modifier ∪ modifier }

/-- `Style::patch(other)`: colors — `other`'s value wins if present;
modifiers — `self.add_modifier` loses `other.sub_modifier` and gains
`other.add_modifier`, symmetrically for `sub_modifier`.  (The Rust body
mutates `add_modifier` before reading `self.sub_modifier`, but only the
untouched original `sub_modifier` is read, so the simultaneous record
below is the same function.) -/
def patch (self other : Style) : Style :=
  { fg := other.fg.or self.fg
    bg := other.bg.or self.bg
    underline_color := other.underline_color.or self.underline_color
    add_modifier := self.add_modifier \ other.sub_modifier ∪ other.add_modifier
    sub_modifier := self.sub_modifier \ other.add_modifier ∪ other.sub_modifier }

end Style

/-- Patching onto the default (all-absent) style returns the patch
argument unchanged. -/
theorem style_default_patch (s : Style) : Style.default.patch s = s := by
  cases s with
  | mk fg bg u a m =>
    simp [Style.patch, Style.default, Style.new, Modifier.empty,
      Option.or_none, Finset.empty_sdiff, Finset.empty_union]

/-- `Style::patch` is associative (on all styles, not only those
satisfying the exclusivity invariant). -/
theorem style_patch_assoc (a b c : Style) :
    (a.patch b).patch c = a.patch (b.patch c) := by
  simp only [Style.patch, Style.mk.injEq]
  refine ⟨(Option.or_assoc).symm, (Option.or_assoc).symm,
    (Option.or_assoc).symm, ?_, ?_⟩
  · ext x
    simp only [Finset.mem_union, Finset.mem_sdiff]
    tauto
  · ext x
    simp only [Finset.mem_union, Finset.mem_sdiff]
    tauto

/-- C1: Style patching is associative — for all styles A, B, C, D,
`Style::default().patch(A).patch(B).patch(C).patch(D)` equals
`Style::default().patch(A.patch(B.patch(C.patch(D))))`; layering the four
styles gives the same result regardless of grouping. -/
theorem style_patch_chain_assoc (A B C D : Style) :
    (((Style.default.patch A).patch B).patch C).patch D
      = Style.default.patch (A.patch (B.patch (C.patch D))) := by
  simp only [style_default_patch, style_patch_assoc]

/-- The styles obtainable from `Style::default()` / `Style::new()` /
`Style::reset()` by finite sequences of `add_modifier`, `remove_modifier`
and `patch` calls (patch arguments themselves reachable). -/
inductive ReachableStyle : Style → Prop where
  | base_default : ReachableStyle Style.default
  | base_new : ReachableStyle Style.new
  | base_reset : ReachableStyle Style.reset
  | add {s : Style} (m : Modifier) :
      ReachableStyle s → ReachableStyle (s.addModifier m)
  | remove {s : Style} (m : Modifier) :
      ReachableStyle s → ReachableStyle (s.removeModifier m)
  | patch {s t : Style} :
      ReachableStyle s → ReachableStyle t → ReachableStyle (s.patch t)

/-- C2: Modifier exclusivity invariant — every style reachable from the
default / new / reset constructors by `add_modifier`, `remove_modifier`
and `patch` calls has disjoint `add_modifier` and `sub_modifier` flag
sets (their intersection is the empty flag set). -/
theorem style_modifier_exclusive {s : Style} (h : ReachableStyle s) :
    s.add_modifier ∩ s.sub_modifier = Modifier.empty := by
  induction h with
  | base_default => decide
  | base_new => decide
  | base_reset => decide
  | add m _ ih =>
    ext x
    have hx := Finset.eq_empty_iff_forall_not_mem.mp ih x
    simp only [Finset.mem_inter] at hx
    simp only [Style.addModifier, Modifier.empty, Finset.mem_inter,
      Finset.mem_union, Finset.mem_sdiff, Finset.not_mem_empty, iff_false]
    tauto
  | remove m _ ih =>
    ext x
    have hx := Finset.eq_empty_iff_forall_not_mem.mp ih x
    simp only [Finset.mem_inter] at hx
    simp only [Style.removeModifier, Modifier.empty, Finset.mem_inter,
      Finset.mem_union, Finset.mem_sdiff, Finset.not_mem_empty, iff_false]
    tauto
  | patch _ _ ih₁ ih₂ =>
    ext x
    have hx₁ := Finset.eq_empty_iff_forall_not_mem.mp ih₁ x
    have hx₂ := Finset.eq_empty_iff_forall_not_mem.mp ih₂ x
    simp only [Finset.mem_inter] at hx₁ hx₂
    simp only [Style.patch, Modifier.empty, Finset.mem_inter,
      Finset.mem_union, Finset.mem_sdiff, Finset.not_mem_empty, iff_false]
    tauto

/-- Witness for C2: the invariant holds at a concrete reachable style. -/
theorem style_modifier_exclusive_witness :
    ((Style.new.addModifier Modifier.BOLD).removeModifier
        Modifier.BOLD).add_modifier ∩
      ((Style.new.addModifier Modifier.BOLD).removeModifier
        Modifier.BOLD).sub_modifier = Modifier.empty :=
  style_modifier_exclusive
    (ReachableStyle.remove Modifier.BOLD
      (ReachableStyle.add Modifier.BOLD ReachableStyle.base_new))

/-- C6: Reset neutralizes — for every style X,
`Style::default().patch(X).patch(Style::reset())` has `fg`, `bg` and
`underline_color` equal to `Some(Reset)`, an empty `add_modifier`, and a
`sub_modifier` containing all flags, regardless of X. -/
theorem style_reset_neutralizes (X : Style) :
    ((Style.default.patch X).patch Style.reset).fg = some Color.Reset ∧
    ((Style.default.patch X).patch Style.reset).bg = some Color.Reset ∧
    ((Style.default.patch X).patch Style.reset).underline_color
      = some Color.Reset ∧
    ((Style.default.patch X).patch Style.reset).add_modifier
      = Modifier.empty ∧
    ((Style.default.patch X).patch Style.reset).sub_modifier
      = Modifier.all := by
  refine ⟨rfl, rfl, rfl, ?_, ?_⟩
  · ext x
    simp [Style.patch, Style.reset, Modifier.empty, Modifier.all]
  · ext x
    simp [Style.patch, Style.reset, Modifier.all]

/-- Rust's `f64::round` (round half away from zero), embedded for the
nonnegative arguments at which the code applies it. -/
def rustRound (q : ℚ) : ℤ := ⌊q + 1/2⌋

/-- Rust's `x % 1.0` for nonnegative `x`: the fractional part. -/
def fracPart (q : ℚ) : ℚ := q - ⌊q⌋

namespace symbols

namespace block

/-- `symbols::block::FULL`. -/
def FULL : String := "█"

/-- `symbols::block::SEVEN_EIGHTHS`. -/
def SEVEN_EIGHTHS : String := "▉"

/-- `symbols::block::THREE_QUARTERS`. -/
def THREE_QUARTERS : String := "▊"

/-- `symbols::block::FIVE_EIGHTHS`. -/
def FIVE_EIGHTHS : String := "▋"

/-- `symbols::block::HALF`. -/
def HALF : String := "▌"

/-- `symbols::block::THREE_EIGHTHS`. -/
def THREE_EIGHTHS : String := "▍"

/-- `symbols::block::ONE_QUARTER`. -/
def ONE_QUARTER : String := "▎"

/-- `symbols::block::ONE_EIGHTH`. -/
def ONE_EIGHTH : String := "▏"

end block

namespace line

/-- Modelled from the spec: `symbols::line::Set` (not among the provided
sources) is a glyph set for the line gauge supplying at least a
horizontal-segment glyph. -/
structure SymbolSet where
  horizontal : String
deriving DecidableEq

/-- `symbols::line::NORMAL`. -/
def NORMAL : SymbolSet := { horizontal := "─" }

/-- `symbols::line::DOUBLE`. -/
def DOUBLE : SymbolSet := { horizontal := "═" }

/-- `symbols::line::THICK`. -/
def THICK : SymbolSet := { horizontal := "━" }

end line

end symbols

/-- `get_unicode_block` (`src/widgets/gauge.rs`): quantize a fractional
remainder to eighths (`(frac * 8.0).round() as u16` — `toNat` matches the
saturating `as u16` conversion at every nonnegative rounded value) and map
it to a partial-block glyph, blank for 0 and for anything above 8. -/
def get_unicode_block (frac : ℚ) : String :=
  match (rustRound (frac * 8)).toNat with
  | 1 => symbols.block.ONE_EIGHTH
  | 2 => symbols.block.ONE_QUARTER
  | 3 => symbols.block.THREE_EIGHTHS
  | 4 => symbols.block.HALF
  | 5 => symbols.block.FIVE_EIGHTHS
  | 6 => symbols.block.THREE_QUARTERS
  | 7 => symbols.block.SEVEN_EIGHTHS
  | 8 => symbols.block.FULL
  | _ => " "

/-- `Rect` from the layout collaborator: position and size in cells
(`u16` in the source, embedded as `Nat`). -/
structure Rect where
  x : Nat
  y : Nat
  width : Nat
  height : Nat
deriving DecidableEq

namespace Rect

/-- `Rect::left()`. -/
def left (r : Rect) : Nat := r.x

/-- `Rect::right()`. -/
def right (r : Rect) : Nat := r.x + r.width

/-- `Rect::top()`. -/
def top (r : Rect) : Nat := r.y

/-- `Rect::bottom()`. -/
def bottom (r : Rect) : Nat := r.y + r.height

end Rect

/-- Modelled from the spec: a text `Span` is observed by the gauge
renderer only through its width in columns. -/
structure Span where
  width : Nat
deriving DecidableEq

/-- Modelled from the spec: a text `Line` is observed by the line-gauge
renderer only through its width in columns. -/
structure Line where
  width : Nat
deriving DecidableEq

/-- Modelled from the spec: the block decoration collaborator exposes
`inner(rect) -> rect` (the interior once borders and padding are
reserved); its own cell writes are recorded as one opaque operation. -/
structure Block where
  inner : Rect → Rect

/-- One observable buffer operation performed by a render call, in
execution order. -/
inductive Op where
  /-- `buf.set_style(rect, style)`: background wash of a region. -/
  | setStyleRect (r : Rect) (s : Style)
  /-- the configured block decoration rendering into the full area -/
  | blockRender (r : Rect)
  /-- `buf.get_mut(x, y).set_symbol(sym).set_fg(fg).set_bg(bg)` -/
  | setCell (x y : Nat) (sym : String) (fg bg : Color)
  /-- `buf.get_mut(x, y).set_symbol(sym)` (no color change) -/
  | setCellSym (x y : Nat) (sym : String)
  /-- one character cell of a label written via `set_span` / `set_line` -/
  | labelCell (x y : Nat)
  /-- `buf.get_mut(x, y).set_symbol(sym).set_style(s)` -/
  | setCellStyled (x y : Nat) (sym : String) (s : Style)
deriving DecidableEq

/-- `Gauge` (`src/widgets/gauge.rs`). -/
structure Gauge where
  block : Option Block
  ratio : ℚ
  label : Option Span
  use_unicode : Bool
  style : Style
  gauge_style : Style

namespace Gauge

/-- `impl Default for Gauge`. -/
def default : Gauge :=
  { block := none
    ratio := 0
    label := none
    use_unicode := false
    style := Style.default
    gauge_style := Style.default }

/-- `Gauge::percent`: asserts `percent <= 100` (the panic is embedded as
`none`), then stores `f64::from(percent) / 100.0`. -/
def percent (self : Gauge) (p : Nat) : Option Gauge :=
  if p ≤ 100 then some { self with ratio := (p : ℚ) / 100 } else none

/-- `Gauge::ratio` (named `setRatio` because `ratio` is the field
projection): asserts `0.0 <= ratio <= 1.0` (the panic is embedded as
`none`), then stores the ratio. -/
def setRatio (self : Gauge) (ratio : ℚ) : Option Gauge :=
  if 0 ≤ ratio ∧ ratio ≤ 1 then some { self with ratio := ratio } else none

/-- `Gauge::block`. -/
def setBlock (self : Gauge) (b : Block) : Gauge := { self with block := some b }

/-- `Gauge::label`. -/
def setLabel (self : Gauge) (l : Span) : Gauge := { self with label := some l }

/-- `Gauge::style`. -/
def setStyle (self : Gauge) (s : Style) : Gauge := { self with style := s }

/-- `Gauge::gauge_style`. -/
def setGaugeStyle (self : Gauge) (s : Style) : Gauge :=
  { self with gauge_style := s }

/-- `Gauge::use_unicode`. -/
def setUseUnicode (self : Gauge) (u : Bool) : Gauge :=
  { self with use_unicode := u }

end Gauge

/-- Width in columns of the synthesized `Gauge` label `format!("{pct}%")`
with `pct = f64::round(self.ratio * 100.0)` (a nonnegative integer for
in-range ratios, printed by Rust without a decimal point). -/
def pctLabelWidth (ratio : ℚ) : Nat :=
  (toString (rustRound (ratio * 100)).toNat).length + 1

/-- The working rectangle of a gauge render: the block's inner rectangle
when a block is configured, the full area otherwise. -/
def Gauge.gaugeArea (g : Gauge) (area : Rect) : Rect :=
  match g.block with
  | some b => b.inner area
  | none => area

/-- The resolved label width of a gauge: the explicit label's width, else
the width of the synthesized percentage label (the `label` let-binding of
`Gauge::render`, observed through its width). -/
def Gauge.labelWidth (g : Gauge) : Nat :=
  match g.label with
  | some s => s.width
  | none => pctLabelWidth g.ratio

/-- `clamped_label_width` of `Gauge::render`:
`gauge_area.width.min(label.width())`. -/
def Gauge.clampedLabelWidth (g : Gauge) (gauge_area : Rect) : Nat :=
  min gauge_area.width g.labelWidth

/-- `label_col` of `Gauge::render`:
`gauge_area.left() + (gauge_area.width - clamped_label_width) / 2`. -/
def Gauge.labelCol (g : Gauge) (gauge_area : Rect) : Nat :=
  gauge_area.left + (gauge_area.width - g.clampedLabelWidth gauge_area) / 2

/-- `label_row` of `Gauge::render`:
`gauge_area.top() + gauge_area.height / 2`. -/
def Gauge.labelRow (gauge_area : Rect) : Nat :=
  gauge_area.top + gauge_area.height / 2

/-- `filled_width` of `Gauge::render`:
`f64::from(gauge_area.width) * self.ratio`. -/
def Gauge.filledWidth (g : Gauge) (gauge_area : Rect) : ℚ :=
  (gauge_area.width : ℚ) * g.ratio

/-- `end` of `Gauge::render` (named `endCol`; `end` is reserved in Lean):
`left + filled_width.floor()` with sub-cell precision, else
`left + filled_width.round()`. -/
def Gauge.endCol (g : Gauge) (gauge_area : Rect) : Nat :=
  if g.use_unicode then gauge_area.left + (⌊g.filledWidth gauge_area⌋).toNat
  else gauge_area.left + (rustRound (g.filledWidth gauge_area)).toNat

/-- `<Gauge as Widget>::render` (`src/widgets/gauge.rs`), returning the
buffer operations in execution order.  `buf.set_span(label_col,
label_row, &label, clamped_label_width)` is modelled from the spec as
writing `min(label.width, max_width)` label cells (here exactly
`clamped_label_width` of them, since that is already the min). -/
def Gauge.render (g : Gauge) (area : Rect) : List Op :=
  let gauge_area := g.gaugeArea area
  let blockOps : List Op :=
    match g.block with
    | some _ => [Op.blockRender area]
    | none => []
  let washes : List Op :=
    Op.setStyleRect area g.style ::
      blockOps ++ [Op.setStyleRect gauge_area g.gauge_style]
  if gauge_area.height < 1 then washes
  else
    let clamped_label_width := g.clampedLabelWidth gauge_area
    let label_col := g.labelCol gauge_area
    let label_row := Gauge.labelRow gauge_area
    let filled_width : ℚ := g.filledWidth gauge_area
    let endCol : Nat := g.endCol gauge_area
    let fillRow : Nat → List Op := fun y =>
      (List.range' gauge_area.left (endCol - gauge_area.left)).map (fun x =>
        if x < label_col ∨ label_col + clamped_label_width < x ∨ y ≠ label_row then
          Op.setCell x y symbols.block.FULL
            (g.gauge_style.fg.getD Color.Reset)
            (g.gauge_style.bg.getD Color.Reset)
        else
          Op.setCell x y " "
            (g.gauge_style.bg.getD Color.Reset)
            (g.gauge_style.fg.getD Color.Reset))
        ++ (if g.use_unicode ∧ g.ratio < 1 then
              [Op.setCellSym endCol y (get_unicode_block (fracPart filled_width))]
            else [])
    let fillOps := (List.range' gauge_area.top gauge_area.height).flatMap fillRow
    let labelOps :=
      (List.range clamped_label_width).map (fun i =>
        Op.labelCell (label_col + i) label_row)
    washes ++ fillOps ++ labelOps

/-- `LineGauge` (`src/widgets/gauge.rs`). -/
structure LineGauge where
  block : Option Block
  ratio : ℚ
  label : Option Line
  line_set : symbols.line.SymbolSet
  style : Style
  gauge_style : Style

namespace LineGauge

/-- `#[derive(Default)] LineGauge` (`line_set` defaults to
`symbols::line::NORMAL`). -/
def default : LineGauge :=
  { block := none
    ratio := 0
    label := none
    line_set := symbols.line.NORMAL
    style := Style.default
    gauge_style := Style.default }

/-- `LineGauge::ratio` (named `setRatio` because `ratio` is the field
projection): asserts `0.0 <= ratio <= 1.0` (the panic is embedded as
`none`), then stores the ratio. -/
def setRatio (self : LineGauge) (ratio : ℚ) : Option LineGauge :=
  if 0 ≤ ratio ∧ ratio ≤ 1 then some { self with ratio := ratio } else none

/-- `LineGauge::block`. -/
def setBlock (self : LineGauge) (b : Block) : LineGauge :=
  { self with block := some b }

/-- `LineGauge::line_set`. -/
def setLineSet (self : LineGauge) (s : symbols.line.SymbolSet) : LineGauge :=
  { self with line_set := s }

/-- `LineGauge::label`. -/
def setLabel (self : LineGauge) (l : Line) : LineGauge :=
  { self with label := some l }

/-- `LineGauge::style`. -/
def setStyle (self : LineGauge) (s : Style) : LineGauge :=
  { self with style := s }

/-- `LineGauge::gauge_style`. -/
def setGaugeStyle (self : LineGauge) (s : Style) : LineGauge :=
  { self with gauge_style := s }

/-- The working rectangle of a line-gauge render. -/
def gaugeArea (g : LineGauge) (area : Rect) : Rect :=
  match g.block with
  | some b => b.inner area
  | none => area

end LineGauge

/-- Round half to even at integer precision: the tie rule of Rust's
fixed-precision float formatting `format!("{:.0}%", ...)`. -/
def roundHalfEven (q : ℚ) : ℤ :=
  if q - ⌊q⌋ = 1/2 then (if 2 ∣ ⌊q⌋ then ⌊q⌋ else ⌊q⌋ + 1) else rustRound q

/-- Width in columns of the synthesized `LineGauge` label
`format!("{:.0}%", ratio * 100.0)`. -/
def lineGaugePctLabelWidth (ratio : ℚ) : Nat :=
  (toString (roundHalfEven (ratio * 100)).toNat).length + 1

/-- The resolved label width of a line gauge: the explicit label's width,
else the width of the synthesized percentage label. -/
def LineGauge.labelWidth (g : LineGauge) : Nat :=
  match g.label with
  | some l => l.width
  | none => lineGaugePctLabelWidth g.ratio

/-- The number of label cells written by `buf.set_line` (modelled from
the spec: up to `max_width` columns, here the working rectangle's
width). -/
def LineGauge.printedWidth (g : LineGauge) (gauge_area : Rect) : Nat :=
  min g.labelWidth gauge_area.width

/-- `start` of `LineGauge::render`: one column after the column returned
by `set_line`. -/
def LineGauge.startCol (g : LineGauge) (gauge_area : Rect) : Nat :=
  gauge_area.left + g.printedWidth gauge_area + 1

/-- `end` of `LineGauge::render` (named `endCol`):
`start + floor((right - start) * ratio)` with a saturating column
difference. -/
def LineGauge.endCol (g : LineGauge) (gauge_area : Rect) : Nat :=
  g.startCol gauge_area
    + (⌊((gauge_area.right - g.startCol gauge_area : Nat) : ℚ) * g.ratio⌋).toNat

/-- `<LineGauge as Widget>::render` (`src/widgets/gauge.rs`), returning
the buffer operations in execution order.  `buf.set_line(left, top,
&label, max_width)` is modelled from the spec as writing
`min(label.width, max_width)` label cells starting at `(left, top)` and
returning the column after the last written cell together with the row
used. -/
def LineGauge.render (g : LineGauge) (area : Rect) : List Op :=
  let gauge_area := g.gaugeArea area
  let blockOps : List Op :=
    match g.block with
    | some _ => [Op.blockRender area]
    | none => []
  let washes : List Op := Op.setStyleRect area g.style :: blockOps
  if gauge_area.height < 1 then washes
  else
    let printed := g.printedWidth gauge_area
    let labelOps :=
      (List.range printed).map (fun i =>
        Op.labelCell (gauge_area.left + i) gauge_area.top)
    let row := gauge_area.top
    let start := g.startCol gauge_area
    if gauge_area.right ≤ start then washes ++ labelOps
    else
      let endCol := g.endCol gauge_area
      let filledStyle : Style :=
        { fg := g.gauge_style.fg
          bg := none
          underline_color := g.gauge_style.underline_color
          add_modifier := g.gauge_style.add_modifier
          sub_modifier := g.gauge_style.sub_modifier }
      let emptyStyle : Style :=
        { fg := g.gauge_style.bg
          bg := none
          underline_color := g.gauge_style.underline_color
          add_modifier := g.gauge_style.add_modifier
          sub_modifier := g.gauge_style.sub_modifier }
      washes ++ labelOps
        ++ (List.range' start (endCol - start)).map (fun c =>
              Op.setCellStyled c row g.line_set.horizontal filledStyle)
        ++ (List.range' endCol (gauge_area.right - endCol)).map (fun c =>
              Op.setCellStyled c row g.line_set.horizontal emptyStyle)

/-- C7: Invalid configuration is rejected eagerly — `Gauge::percent(p)`
fails fatally for every `p > 100`, and `Gauge::ratio(r)` and
`LineGauge::ratio(r)` fail fatally for every `r` outside `[0, 1]`; a
failing call produces no configuration at all (`none`). -/
theorem builders_reject_invalid :
    (∀ (g : Gauge) (p : Nat), 100 < p → g.percent p = none) ∧
    (∀ (g : Gauge) (r : ℚ), r < 0 ∨ 1 < r → g.setRatio r = none) ∧
    (∀ (g : LineGauge) (r : ℚ), r < 0 ∨ 1 < r → g.setRatio r = none) := by
  refine ⟨?_, ?_, ?_⟩
  · intro g p hp
    simp only [Gauge.percent, ite_eq_right_iff]
    intro hle
    omega
  · intro g r hr
    simp only [Gauge.setRatio, ite_eq_right_iff]
    rintro ⟨h0, h1⟩
    rcases hr with h | h <;> linarith
  · intro g r hr
    simp only [LineGauge.setRatio, ite_eq_right_iff]
    rintro ⟨h0, h1⟩
    rcases hr with h | h <;> linarith

/-- Witness for C7: `percent(101)`, `ratio(1.1)` and `ratio(-0.1)` each
abort. -/
theorem builders_reject_invalid_witness :
    Gauge.default.percent 101 = none ∧
    Gauge.default.setRatio (11 / 10) = none ∧
    LineGauge.default.setRatio (-(1 / 10)) = none :=
  ⟨builders_reject_invalid.1 Gauge.default 101 (by norm_num),
   builders_reject_invalid.2.1 Gauge.default (11 / 10) (Or.inr (by norm_num)),
   builders_reject_invalid.2.2 LineGauge.default (-(1 / 10))
     (Or.inl (by norm_num))⟩

/-- C9: Percent/ratio equivalence — `Gauge::default().percent(20)`
produces the same `ratio` field as `Gauge::default().ratio(0.2)`
(`f64::from(20) / 100.0` equals `0.2` exactly). -/
theorem gauge_percent_ratio_equivalence :
    (Gauge.default.percent 20).map Gauge.ratio
      = (Gauge.default.setRatio (2 / 10)).map Gauge.ratio := by
  norm_num [Gauge.percent, Gauge.setRatio, Gauge.default]

/-- The `Gauge` values reachable from `Gauge::default()` by public
builder calls (`percent` / `ratio` only through a successful call). -/
inductive Gauge.Reachable : Gauge → Prop where
  | base : Gauge.Reachable Gauge.default
  | block {g : Gauge} (b : Block) :
      Gauge.Reachable g → Gauge.Reachable (g.setBlock b)
  | percent {g g' : Gauge} (p : Nat) :
      Gauge.Reachable g → g.percent p = some g' → Gauge.Reachable g'
  | ratio {g g' : Gauge} (r : ℚ) :
      Gauge.Reachable g → g.setRatio r = some g' → Gauge.Reachable g'
  | label {g : Gauge} (l : Span) :
      Gauge.Reachable g → Gauge.Reachable (g.setLabel l)
  | style {g : Gauge} (s : Style) :
      Gauge.Reachable g → Gauge.Reachable (g.setStyle s)
  | gauge_style {g : Gauge} (s : Style) :
      Gauge.Reachable g → Gauge.Reachable (g.setGaugeStyle s)
  | use_unicode {g : Gauge} (u : Bool) :
      Gauge.Reachable g → Gauge.Reachable (g.setUseUnicode u)

/-- The `LineGauge` values reachable from `LineGauge::default()` by
public builder calls. -/
inductive LineGauge.Reachable : LineGauge → Prop where
  | base : LineGauge.Reachable LineGauge.default
  | block {g : LineGauge} (b : Block) :
      LineGauge.Reachable g → LineGauge.Reachable (g.setBlock b)
  | ratio {g g' : LineGauge} (r : ℚ) :
      LineGauge.Reachable g → g.setRatio r = some g' → LineGauge.Reachable g'
  | line_set {g : LineGauge} (s : symbols.line.SymbolSet) :
      LineGauge.Reachable g → LineGauge.Reachable (g.setLineSet s)
  | label {g : LineGauge} (l : Line) :
      LineGauge.Reachable g → LineGauge.Reachable (g.setLabel l)
  | style {g : LineGauge} (s : Style) :
      LineGauge.Reachable g → LineGauge.Reachable (g.setStyle s)
  | gauge_style {g : LineGauge} (s : Style) :
      LineGauge.Reachable g → LineGauge.Reachable (g.setGaugeStyle s)

/-- C10: Implicit ratio-range invariant — every `Gauge` and `LineGauge`
reachable from `Default` by public builder calls has its `ratio` field in
`[0, 1]`: the default is 0, `percent` stores `p/100` only for `p ≤ 100`,
`ratio` stores `r` only for `r ∈ [0, 1]`, and no other builder writes the
field. -/
theorem gauge_ratio_range_invariant :
    (∀ g : Gauge, Gauge.Reachable g → 0 ≤ g.ratio ∧ g.ratio ≤ 1) ∧
    (∀ g : LineGauge, LineGauge.Reachable g → 0 ≤ g.ratio ∧ g.ratio ≤ 1) := by
  constructor
  · intro g h
    induction h with
    | base => norm_num [Gauge.default]
    | block b _ ih => simpa [Gauge.setBlock] using ih
    | percent p _ hp ih =>
      rw [Gauge.percent] at hp
      split at hp
      · simp only [Option.some.injEq] at hp
        subst hp
        refine ⟨by positivity, ?_⟩
        rw [div_le_one (by norm_num)]
        exact_mod_cast by omega
      · exact absurd hp (by simp)
    | ratio r _ hp ih =>
      rw [Gauge.setRatio] at hp
      split at hp
      · simp only [Option.some.injEq] at hp
        subst hp
        assumption
      · exact absurd hp (by simp)
    | label l _ ih => simpa [Gauge.setLabel] using ih
    | style s _ ih => simpa [Gauge.setStyle] using ih
    | gauge_style s _ ih => simpa [Gauge.setGaugeStyle] using ih
    | use_unicode u _ ih => simpa [Gauge.setUseUnicode] using ih
  · intro g h
    induction h with
    | base => norm_num [LineGauge.default]
    | block b _ ih => simpa [LineGauge.setBlock] using ih
    | ratio r _ hp ih =>
      rw [LineGauge.setRatio] at hp
      split at hp
      · simp only [Option.some.injEq] at hp
        subst hp
        assumption
      · exact absurd hp (by simp)
    | line_set s _ ih => simpa [LineGauge.setLineSet] using ih
    | label l _ ih => simpa [LineGauge.setLabel] using ih
    | style s _ ih => simpa [LineGauge.setStyle] using ih
    | gauge_style s _ ih => simpa [LineGauge.setGaugeStyle] using ih

/-- Witness for C10: the invariant evaluated on a concrete reachable
gauge. -/
theorem gauge_ratio_range_invariant_witness :
    0 ≤ (Gauge.default.setUseUnicode true).ratio ∧
      (Gauge.default.setUseUnicode true).ratio ≤ 1 :=
  gauge_ratio_range_invariant.1 (Gauge.default.setUseUnicode true)
    (Gauge.Reachable.use_unicode true Gauge.Reachable.base)

theorem rustRound_zero : rustRound 0 = 0 := by
  rw [rustRound]
  norm_num [Int.floor_eq_iff]

theorem fracPart_zero : fracPart 0 = 0 := by
  simp [fracPart]

theorem get_unicode_block_zero : get_unicode_block 0 = " " := by
  have h : rustRound ((0 : ℚ) * 8) = 0 := by rw [zero_mul]; exact rustRound_zero
  unfold get_unicode_block
  rw [h]
  rfl

theorem flatMap_singleton_map {α β : Type} (l : List α) (f : α → β) :
    (l.flatMap fun x => [f x]) = l.map f := by
  induction l with
  | nil => rfl
  | cons a t ih => simp [List.flatMap_cons, ih]

theorem flatMap_nil_eq {α β : Type} (l : List α) :
    (l.flatMap fun _ => ([] : List β)) = [] := by
  induction l with
  | nil => rfl
  | cons a t ih => simp [List.flatMap_cons, ih]

/-- A gauge rendered into a zero-height working rectangle performs the
two background washes and returns. -/
theorem gauge_render_zero_height (g : Gauge) (area : Rect)
    (hb : g.block = none) (hh : area.height = 0) :
    g.render area
      = [Op.setStyleRect area g.style, Op.setStyleRect area g.gauge_style] := by
  unfold Gauge.render
  simp only [Gauge.gaugeArea, hb]
  rw [if_pos (by omega)]
  simp

/-- A gauge rendered into a zero-width working rectangle of positive
height performs the two washes, writes no fill or label cell, and — when
`use_unicode` is on and the ratio is below 1 — writes one blank
fractional glyph at the left column of every row. -/
theorem gauge_render_zero_width (g : Gauge) (area : Rect)
    (hb : g.block = none) (hw : area.width = 0) (hh : 1 ≤ area.height) :
    g.render area
      = [Op.setStyleRect area g.style, Op.setStyleRect area g.gauge_style]
        ++ (if g.use_unicode ∧ g.ratio < 1 then
              (List.range' area.y area.height).map
                (fun y => Op.setCellSym area.x y " ")
            else []) := by
  unfold Gauge.render
  simp only [Gauge.gaugeArea, hb]
  rw [if_neg (by omega)]
  simp only [Gauge.clampedLabelWidth, Gauge.labelCol, Gauge.labelRow,
    Gauge.filledWidth, Gauge.endCol, hw, Rect.left, Rect.top, Nat.cast_zero,
    zero_mul, Int.floor_zero, Int.toNat_zero, rustRound_zero, ite_self,
    Nat.add_zero, Nat.sub_self, List.range'_zero, List.map_nil,
    List.nil_append, fracPart_zero, get_unicode_block_zero, Nat.zero_min,
    List.range_zero, List.append_nil]
  by_cases hc : (g.use_unicode : Prop) ∧ g.ratio < 1
  · rcases hc with ⟨h1, h2⟩
    simp [h1, h2, flatMap_singleton_map]
  · simp only [if_neg hc, flatMap_nil_eq, List.append_nil]
    simp

/-- C3 (amended): for a working rectangle of zero height, render performs
the two background washes and writes nothing else; for a zero-width
rectangle of positive height it writes no fill or label cells, but —
contrary to the claim as stated — when `use_unicode` is enabled and the
ratio is strictly below 1 it writes one blank fractional-glyph cell at
the left column of every row; in all cases it returns without failing. -/
theorem gauge_render_degenerate (g : Gauge) (area : Rect)
    (hb : g.block = none) (hdeg : area.height = 0 ∨ area.width = 0) :
    g.render area
      = [Op.setStyleRect area g.style, Op.setStyleRect area g.gauge_style]
        ++ (if 1 ≤ area.height ∧ g.use_unicode ∧ g.ratio < 1 ∧ area.width = 0
            then
              (List.range' area.y area.height).map
                (fun y => Op.setCellSym area.x y " ")
            else []) := by
  rcases Nat.lt_or_ge area.height 1 with h1 | h1
  · have hh0 : area.height = 0 := by omega
    rw [gauge_render_zero_height g area hb hh0]
    rw [if_neg (by omega)]
    simp
  · have hw : area.width = 0 := by
      rcases hdeg with h | h
      · omega
      · exact h
    rw [gauge_render_zero_width g area hb hw h1]
    have hiff : (1 ≤ area.height ∧ (g.use_unicode : Prop) ∧ g.ratio < 1 ∧
        area.width = 0) ↔ ((g.use_unicode : Prop) ∧ g.ratio < 1) := by
      constructor
      · rintro ⟨_, h₂, h₃, _⟩
        exact ⟨h₂, h₃⟩
      · rintro ⟨h₂, h₃⟩
        exact ⟨h1, h₂, h₃, hw⟩
    rw [if_congr hiff rfl rfl]

/-- Counterexample to C3 as stated: rendering a unicode gauge (ratio 0)
into the zero-width, one-row area at the origin writes a fractional-glyph
cell (the blank glyph at the boundary column), so the render does not
leave the cells untouched beyond the background washes. -/
theorem gauge_render_degenerate_counterexample :
    Op.setCellSym 0 0 " "
      ∈ (Gauge.default.setUseUnicode true).render ⟨0, 0, 0, 1⟩ := by
  rw [gauge_render_zero_width _ _ rfl rfl (by norm_num)]
  norm_num [Gauge.setUseUnicode, Gauge.default, List.range']

/-- Witness for C3 (amended), at a concrete gauge and area. -/
theorem gauge_render_degenerate_witness :
    (Gauge.default.setUseUnicode true).render ⟨0, 0, 0, 1⟩
      = [Op.setStyleRect ⟨0, 0, 0, 1⟩ (Gauge.default.setUseUnicode true).style,
         Op.setStyleRect ⟨0, 0, 0, 1⟩
           (Gauge.default.setUseUnicode true).gauge_style]
        ++ (if 1 ≤ (⟨0, 0, 0, 1⟩ : Rect).height ∧
              ((Gauge.default.setUseUnicode true).use_unicode : Prop) ∧
              (Gauge.default.setUseUnicode true).ratio < 1 ∧
              (⟨0, 0, 0, 1⟩ : Rect).width = 0
            then
              (List.range' (⟨0, 0, 0, 1⟩ : Rect).y
                  (⟨0, 0, 0, 1⟩ : Rect).height).map
                (fun y => Op.setCellSym (⟨0, 0, 0, 1⟩ : Rect).x y " ")
            else []) :=
  gauge_render_degenerate _ _ rfl (Or.inr rfl)

theorem mem_ite_nil {α : Type} {c : Prop} [Decidable c] {a : α} {l : List α} :
    (a ∈ if c then l else []) ↔ c ∧ a ∈ l := by
  by_cases h : c <;> simp [h]

theorem gauge_endCol_le (g : Gauge) (area : Rect) : area.x ≤ g.endCol area := by
  unfold Gauge.endCol Rect.left
  split <;> omega

/-- Characterization of the full-block / blank cell writes of
`Gauge::render` (no block, at least one row): exactly the cells of the
rows of the working rectangle with column in `[left, end)`, full-block
with the bar colors outside the label box and blank with the colors
swapped inside it. -/
theorem gauge_render_mem_setCell (g : Gauge) (area : Rect)
    (hb : g.block = none) (hh : 1 ≤ area.height)
    (x y : Nat) (sym : String) (fg bg : Color) :
    Op.setCell x y sym fg bg ∈ g.render area
      ↔ (area.x ≤ x ∧ x < g.endCol area ∧ area.y ≤ y ∧
          y < area.y + area.height ∧
          (if x < g.labelCol area ∨
              g.labelCol area + g.clampedLabelWidth area < x ∨
              y ≠ Gauge.labelRow area then
            sym = symbols.block.FULL ∧ fg = g.gauge_style.fg.getD Color.Reset ∧
              bg = g.gauge_style.bg.getD Color.Reset
          else
            sym = " " ∧ fg = g.gauge_style.bg.getD Color.Reset ∧
              bg = g.gauge_style.fg.getD Color.Reset)) := by
  have hx0 := gauge_endCol_le g area
  unfold Gauge.render
  simp only [Gauge.gaugeArea, hb]
  rw [if_neg (by omega)]
  simp only [Rect.left, Rect.top, List.cons_append, List.nil_append,
    List.mem_cons, List.mem_append, List.mem_flatMap, List.mem_range'_1,
    List.mem_map, List.mem_range, List.not_mem_nil, or_false, false_or,
    reduceCtorEq, List.mem_singleton, mem_ite_nil, and_false, exists_false,
    ite_eq_iff, Op.setCell.injEq]
  constructor
  · rintro ⟨a, ⟨ha1, ha2⟩, b, ⟨hb1, hb2⟩,
      (⟨hc, rfl, rfl, rfl, rfl, rfl⟩ | ⟨hc, rfl, rfl, rfl, rfl, rfl⟩)⟩
    · exact ⟨hb1, by omega, ha1, ha2, by rw [if_pos hc]; exact ⟨rfl, rfl, rfl⟩⟩
    · exact ⟨hb1, by omega, ha1, ha2, by rw [if_neg hc]; exact ⟨rfl, rfl, rfl⟩⟩
  · rintro ⟨hx1, hx2, hy1, hy2, hcond⟩
    refine ⟨y, ⟨hy1, hy2⟩, x, ⟨hx1, by omega⟩, ?_⟩
    by_cases hc : x < g.labelCol area ∨
        g.labelCol area + g.clampedLabelWidth area < x ∨ y ≠ Gauge.labelRow area
    · rw [if_pos hc] at hcond
      exact Or.inl ⟨hc, rfl, rfl, hcond.1.symm, hcond.2.1.symm, hcond.2.2.symm⟩
    · rw [if_neg hc] at hcond
      exact Or.inr ⟨hc, rfl, rfl, hcond.1.symm, hcond.2.1.symm, hcond.2.2.symm⟩

/-- With sub-cell precision on and ratio below 1, `Gauge::render` writes
the fractional glyph at the boundary column of every row of the working
rectangle. -/
theorem gauge_render_mem_setCellSym (g : Gauge) (area : Rect)
    (hb : g.block = none) (hh : 1 ≤ area.height)
    (hu : (g.use_unicode : Prop)) (hr : g.ratio < 1) (y : Nat)
    (hy1 : area.y ≤ y) (hy2 : y < area.y + area.height) :
    Op.setCellSym (g.endCol area) y
        (get_unicode_block (fracPart (g.filledWidth area)))
      ∈ g.render area := by
  unfold Gauge.render
  simp only [Gauge.gaugeArea, hb]
  rw [if_neg (by omega)]
  simp only [Rect.left, Rect.top, List.cons_append, List.nil_append,
    List.mem_cons, List.mem_append, List.mem_flatMap, List.mem_range'_1,
    List.mem_map, List.mem_range, List.not_mem_nil, or_false, false_or,
    reduceCtorEq, List.mem_singleton, mem_ite_nil, and_false, exists_false,
    ite_eq_iff, Op.setCellSym.injEq]
  exact ⟨y, ⟨hy1, hy2⟩, ⟨hu, hr⟩, trivial, rfl, trivial⟩

/-- The nine glyphs from blank through full block, indexed by eighths. -/
def eighthGlyphs : List String :=
  [" ", symbols.block.ONE_EIGHTH, symbols.block.ONE_QUARTER,
   symbols.block.THREE_EIGHTHS, symbols.block.HALF,
   symbols.block.FIVE_EIGHTHS, symbols.block.THREE_QUARTERS,
   symbols.block.SEVEN_EIGHTHS, symbols.block.FULL]

theorem fracPart_nonneg (q : ℚ) : 0 ≤ fracPart q := by
  rw [fracPart]
  have := Int.floor_le q
  linarith

theorem fracPart_lt_one (q : ℚ) : fracPart q < 1 := by
  rw [fracPart]
  have := Int.lt_floor_add_one q
  linarith

/-- On `[0, 1)` the fractional-glyph table is exactly indexing the glyph
list by the remainder rounded to eighths. -/
theorem get_unicode_block_getD (frac : ℚ) (h0 : 0 ≤ frac) (h1 : frac < 1) :
    get_unicode_block frac = eighthGlyphs.getD (rustRound (8 * frac)).toNat " " := by
  have h8 : rustRound (frac * 8) ≤ 8 := by
    unfold rustRound
    have hlt : frac * 8 + 1 / 2 < ((9 : ℤ) : ℚ) := by push_cast; nlinarith
    have := Int.floor_lt.mpr hlt
    omega
  rw [mul_comm 8 frac]
  unfold get_unicode_block
  set k := (rustRound (frac * 8)).toNat with hk
  have hk8 : k ≤ 8 := by omega
  interval_cases k <;> rfl

/-- C4: Gauge fill geometry — with `filled = width * ratio`, every
full/blank fill cell lies left of the boundary column
`left + floor(filled)` (sub-cell precision) / `left + round(filled)`
(otherwise), every cell of the working rectangle left of that boundary is
written, and with sub-cell precision on and ratio strictly below 1 the
glyph written at the boundary column of each row encodes
`round(8 * (filled mod 1))` as a partial-block shape from the
blank-through-full-block table. -/
theorem gauge_fill_geometry (g : Gauge) (area : Rect)
    (hb : g.block = none) (hh : 1 ≤ area.height) :
    (∀ x y sym fg bg, Op.setCell x y sym fg bg ∈ g.render area →
        area.x ≤ x ∧
          x < (if g.use_unicode
            then area.x + (⌊(area.width : ℚ) * g.ratio⌋).toNat
            else area.x + (rustRound ((area.width : ℚ) * g.ratio)).toNat)) ∧
    (∀ x y, area.x ≤ x →
        x < (if g.use_unicode
            then area.x + (⌊(area.width : ℚ) * g.ratio⌋).toNat
            else area.x + (rustRound ((area.width : ℚ) * g.ratio)).toNat) →
        area.y ≤ y → y < area.y + area.height →
        ∃ sym fg bg, Op.setCell x y sym fg bg ∈ g.render area) ∧
    (g.use_unicode = true → g.ratio < 1 →
      ∀ y, area.y ≤ y → y < area.y + area.height →
        Op.setCellSym (area.x + (⌊(area.width : ℚ) * g.ratio⌋).toNat) y
            (eighthGlyphs.getD
              (rustRound (8 * fracPart ((area.width : ℚ) * g.ratio))).toNat " ")
          ∈ g.render area) := by
  have hend : g.endCol area = (if g.use_unicode
      then area.x + (⌊(area.width : ℚ) * g.ratio⌋).toNat
      else area.x + (rustRound ((area.width : ℚ) * g.ratio)).toNat) := rfl
  refine ⟨?_, ?_, ?_⟩
  · intro x y sym fg bg hmem
    have h := (gauge_render_mem_setCell g area hb hh x y sym fg bg).mp hmem
    exact ⟨h.1, by rw [← hend]; exact h.2.1⟩
  · intro x y hx1 hx2 hy1 hy2
    by_cases hc : x < g.labelCol area ∨
        g.labelCol area + g.clampedLabelWidth area < x ∨ y ≠ Gauge.labelRow area
    · exact ⟨symbols.block.FULL, g.gauge_style.fg.getD Color.Reset,
        g.gauge_style.bg.getD Color.Reset,
        (gauge_render_mem_setCell g area hb hh x y _ _ _).mpr
          ⟨hx1, by rw [hend]; exact hx2, hy1, hy2,
            by rw [if_pos hc]; exact ⟨rfl, rfl, rfl⟩⟩⟩
    · exact ⟨" ", g.gauge_style.bg.getD Color.Reset,
        g.gauge_style.fg.getD Color.Reset,
        (gauge_render_mem_setCell g area hb hh x y _ _ _).mpr
          ⟨hx1, by rw [hend]; exact hx2, hy1, hy2,
            by rw [if_neg hc]; exact ⟨rfl, rfl, rfl⟩⟩⟩
  · intro hu hr y hy1 hy2
    have hmem := gauge_render_mem_setCellSym g area hb hh hu hr y hy1 hy2
    rw [get_unicode_block_getD _ (fracPart_nonneg _) (fracPart_lt_one _)] at hmem
    have he2 : g.endCol area = area.x + (⌊(area.width : ℚ) * g.ratio⌋).toNat := by
      rw [hend, if_pos hu]
    rw [he2] at hmem
    exact hmem

/-- A concrete unicode gauge (ratio 1/2, explicit label of width 2) used
as a witness input. -/
def sampleUnicodeGauge : Gauge :=
  { Gauge.default with
      ratio := 1 / 2
      use_unicode := true
      label := some ⟨2⟩ }

/-- A concrete full gauge (ratio 1, explicit label of width 2) used as a
witness input. -/
def sampleLabelGauge : Gauge :=
  { Gauge.default with
      ratio := 1
      label := some ⟨2⟩ }

/-- Witness for C4: the fractional glyph write, at a concrete unicode
gauge (ratio 1/2, explicit label of width 2) on a 2x1 area. -/
theorem gauge_fill_geometry_witness :
    Op.setCellSym
        ((⟨0, 0, 2, 1⟩ : Rect).x
          + (⌊((⟨0, 0, 2, 1⟩ : Rect).width : ℚ) * sampleUnicodeGauge.ratio⌋).toNat) 0
        (eighthGlyphs.getD
          (rustRound (8 * fracPart (((⟨0, 0, 2, 1⟩ : Rect).width : ℚ)
            * sampleUnicodeGauge.ratio))).toNat " ")
      ∈ sampleUnicodeGauge.render ⟨0, 0, 2, 1⟩ :=
  (gauge_fill_geometry sampleUnicodeGauge ⟨0, 0, 2, 1⟩ rfl (by norm_num)).2.2
    rfl (by show (1 / 2 : ℚ) < 1; norm_num) 0 (le_refl 0) (by norm_num)

/-- C5: Gauge label placement and color inversion — the label width is
clamped to the working rectangle's width, the label column is
`left + (width - clamped_label_width) / 2` and the label row is
`top + height / 2` (floor divisions), and every full/blank fill cell is
blank with the bar-fill colors swapped exactly when its row is the label
row and its column lies in `[label_col, label_col + clamped_label_width]`
(full block with the colors applied normally otherwise), absent colors
falling back to `Reset`. -/
theorem gauge_label_placement (g : Gauge) (area : Rect)
    (hb : g.block = none) (hh : 1 ≤ area.height) :
    g.clampedLabelWidth area = min area.width g.labelWidth ∧
    g.labelCol area = area.x + (area.width - min area.width g.labelWidth) / 2 ∧
    Gauge.labelRow area = area.y + area.height / 2 ∧
    (∀ x y sym fg bg, Op.setCell x y sym fg bg ∈ g.render area →
      (if y = Gauge.labelRow area ∧ g.labelCol area ≤ x ∧
          x ≤ g.labelCol area + g.clampedLabelWidth area then
        sym = " " ∧ fg = g.gauge_style.bg.getD Color.Reset ∧
          bg = g.gauge_style.fg.getD Color.Reset
      else
        sym = symbols.block.FULL ∧ fg = g.gauge_style.fg.getD Color.Reset ∧
          bg = g.gauge_style.bg.getD Color.Reset)) := by
  refine ⟨rfl, rfl, rfl, ?_⟩
  intro x y sym fg bg hmem
  have h := ((gauge_render_mem_setCell g area hb hh x y sym fg bg).mp
    hmem).2.2.2.2
  by_cases hbox : y = Gauge.labelRow area ∧ g.labelCol area ≤ x ∧
      x ≤ g.labelCol area + g.clampedLabelWidth area
  · rw [if_pos hbox]
    rw [if_neg (by omega)] at h
    exact h
  · rw [if_neg hbox]
    rw [if_pos (by omega)] at h
    exact h

/-- Witness for C5: the label-row formula at a concrete gauge and area. -/
theorem gauge_label_placement_witness :
    Gauge.labelRow ⟨0, 0, 2, 1⟩ = 0 + 1 / 2 :=
  (gauge_label_placement sampleLabelGauge ⟨0, 0, 2, 1⟩
      rfl (by norm_num)).2.2.1

theorem line_gauge_start_le_end (g : LineGauge) (area : Rect) :
    g.startCol area ≤ g.endCol area := by
  unfold LineGauge.endCol
  omega

/-- C8: LineGauge bar geometry — the bar starts one column after the
column returned by drawing the label at the working rectangle's
top-left; when that start column is at or past the right edge no bar
cell is drawn; otherwise the fill boundary is
`start + floor((right - start) * ratio)`, cells in `[start, boundary)`
receive the horizontal glyph with the bar-fill foreground and no
background, and cells in `[boundary, right)` receive the same glyph with
the bar-fill background as its foreground. -/
theorem line_gauge_bar_geometry (g : LineGauge) (area : Rect)
    (hb : g.block = none) (hh : 1 ≤ area.height) :
    g.startCol area = area.x + min g.labelWidth area.width + 1 ∧
    g.endCol area = g.startCol area
      + (⌊((area.right - g.startCol area : Nat) : ℚ) * g.ratio⌋).toNat ∧
    (area.right ≤ g.startCol area →
      ∀ c r sym st, Op.setCellStyled c r sym st ∉ g.render area) ∧
    (g.startCol area < area.right →
      ∀ c r sym st, (Op.setCellStyled c r sym st ∈ g.render area ↔
        (r = area.y ∧ sym = g.line_set.horizontal ∧
          ((g.startCol area ≤ c ∧ c < g.endCol area ∧
            st = { fg := g.gauge_style.fg
                   bg := none
                   underline_color := g.gauge_style.underline_color
                   add_modifier := g.gauge_style.add_modifier
                   sub_modifier := g.gauge_style.sub_modifier }) ∨
           (g.endCol area ≤ c ∧ c < area.right ∧
            st = { fg := g.gauge_style.bg
                   bg := none
                   underline_color := g.gauge_style.underline_color
                   add_modifier := g.gauge_style.add_modifier
                   sub_modifier := g.gauge_style.sub_modifier })))))  := by
  have hse := line_gauge_start_le_end g area
  refine ⟨rfl, rfl, ?_, ?_⟩
  · intro hno c r sym st
    unfold LineGauge.render
    simp only [LineGauge.gaugeArea, hb]
    rw [if_neg (by omega), if_pos hno]
    simp
  · intro hlt c r sym st
    unfold LineGauge.render
    simp only [LineGauge.gaugeArea, hb]
    rw [if_neg (by omega), if_neg (by omega)]
    simp only [Rect.left, Rect.top, Rect.right, List.cons_append,
      List.nil_append, List.mem_cons, List.mem_append, List.mem_map,
      List.mem_range, List.mem_range'_1, List.not_mem_nil, or_false,
      false_or, reduceCtorEq, Op.setCellStyled.injEq, and_false,
      exists_false]
    constructor
    · rintro (⟨a, ⟨h1, h2⟩, rfl, rfl, rfl, rfl⟩ | ⟨a, ⟨h1, h2⟩, rfl, rfl, rfl, rfl⟩)
      · exact ⟨rfl, rfl, Or.inl ⟨h1, by omega, rfl⟩⟩
      · exact ⟨rfl, rfl, Or.inr ⟨h1, by omega, rfl⟩⟩
    · rintro ⟨rfl, rfl, (⟨h1, h2, rfl⟩ | ⟨h1, h2, rfl⟩)⟩
      · exact Or.inl ⟨c, ⟨h1, by omega⟩, rfl, rfl, rfl, rfl⟩
      · exact Or.inr ⟨c, ⟨h1, by omega⟩, rfl, rfl, rfl, rfl⟩

/-- A concrete line gauge (ratio 1/2, explicit label of width 1) used as
a witness input. -/
def sampleLineGauge : LineGauge :=
  { LineGauge.default with
      ratio := 1 / 2
      label := some ⟨1⟩ }

/-- Witness for C8: the bar-start formula at a concrete line gauge on a
6x1 area. -/
theorem line_gauge_bar_geometry_witness :
    sampleLineGauge.startCol ⟨0, 0, 6, 1⟩
      = 0 + min sampleLineGauge.labelWidth 6 + 1 :=
  (line_gauge_bar_geometry sampleLineGauge ⟨0, 0, 6, 1⟩ rfl (by norm_num)).1

end Ratatui
